import Mathlib

/-!
Verification development for the line-kcal-bot repository.

The definitions below are a shallow embedding of the TypeScript source:
src/lib/nutrition.ts (NUTRITION_MAP, matchDish) and the Gemini/LINE
pipeline (analyzeImage, estimateNutrition, fmtMealLine, summarize, and
the image-handler reply construction).  Network and database effects are
factored out: each embedded function takes the data those effects would
deliver (the raw model response text, the query result rows) as explicit
arguments, and everything downstream of those inputs is modelled
faithfully, including JavaScript coercion semantics (Number, String,
truthiness, nullish coalescing) and the greedy regex extraction of JSON
substrings.
-/

set_option maxHeartbeats 1000000

/-- JavaScript numeric values as they occur in this code base: `undefined`
(from reading an absent property), `null` (from the database), `NaN`
(from a failed Number coercion), or a finite number.  Finite doubles are
modelled as rationals; the source never produces infinities and the
inputs used here stay well inside exact double range. -/
inductive JsNum : Type where
  | undef : JsNum
  | jsnull : JsNum
  | nan : JsNum
  | num : Rat → JsNum
deriving DecidableEq, Repr

/-- Values produced by JSON.parse. Object fields keep source order;
duplicate keys are resolved at access time (last one wins), matching
JSON.parse. -/
inductive JsonVal : Type where
  | jnull : JsonVal
  | jbool : Bool → JsonVal
  | jnum : Rat → JsonVal
  | jstr : String → JsonVal
  | jarr : List JsonVal → JsonVal
  | jobj : List (String × JsonVal) → JsonVal

/-- The left-brace character, written via its code point. -/
def lbrace : Char := Char.ofNat 123

/-- The right-brace character, written via its code point. -/
def rbrace : Char := Char.ofNat 125

/-- Whitespace recognised by JavaScript trim and the \s regex class
(the code points that occur in practice here). -/
def jsWsChar (c : Char) : Bool :=
  c == ' ' || c == '\t' || c == '\n' || c == '\r' ||
  c == Char.ofNat 11 || c == Char.ofNat 12 || c == Char.ofNat 160

/-- ASCII lowercasing of one character, as String.prototype.toLowerCase
acts on the ASCII range (the only range exercised by this code). -/
def lowChar (c : Char) : Char :=
  if 'A' ≤ c ∧ c ≤ 'Z' then Char.ofNat (c.toNat + 32) else c

/-- Model of s.toLowerCase(). -/
def lowerStr (s : String) : String := String.mk (s.data.map lowChar)

/-- Model of String.prototype.trim on a character list. -/
def trimChars (cs : List Char) : List Char :=
  ((cs.dropWhile jsWsChar).reverse.dropWhile jsWsChar).reverse

/-- Model of s.trim(). -/
def trimStr (s : String) : String := String.mk (trimChars s.data)

/-- Does the character list start with the given pattern list. -/
def startsWithL : List Char → List Char → Bool
  | _, [] => true
  | [], _ :: _ => false
  | a :: as, b :: bs => a == b && startsWithL as bs

/-- Model of hay.includes(needle) from JavaScript: substring containment. -/
def hasSubL : List Char → List Char → Bool
  | [], needle => needle.isEmpty
  | a :: t, needle => startsWithL (a :: t) needle || hasSubL t needle

/-- First index at which the predicate holds. -/
def fIdx (p : Char → Bool) : List Char → Option Nat
  | [] => none
  | c :: cs => if p c then some 0 else (fIdx p cs).map (· + 1)

/-- Last index at which the predicate holds. -/
def lIdx (p : Char → Bool) : List Char → Option Nat
  | [] => none
  | c :: cs =>
    match lIdx p cs with
    | some j => some (j + 1)
    | none => if p c then some 0 else none

/-- Model of s.match(new greedy regex from lc through rc).  A greedy
regex of the shape lc [anything]* rc matches from the first occurrence
of lc to the last occurrence of rc in the whole string; it matches at
all exactly when that first lc lies strictly before that last rc. -/
def extractDelim (lc rc : Char) (s : String) : Option String :=
  match fIdx (· == lc) s.data, lIdx (· == rc) s.data with
  | some i, some j =>
    if i < j then some (String.mk ((s.data.drop i).take (j - i + 1))) else none
  | _, _ => none

/-- JSON whitespace accepted between tokens by JSON.parse. -/
def jsonWs (c : Char) : Bool := c == ' ' || c == '\t' || c == '\n' || c == '\r'

/-- Drop leading JSON whitespace. -/
def skipWs (cs : List Char) : List Char := cs.dropWhile jsonWs

/-- Powers of ten over the rationals, written with plain multiplication
so that every use reduces. -/
def powTenN : Nat → Rat
  | 0 => 1
  | n + 1 => 10 * powTenN n

/-- Integer powers of ten. -/
def powTen : Int → Rat
  | Int.ofNat n => powTenN n
  | Int.negSucc n => 1 / powTenN (n + 1)

/-- Value of a hexadecimal digit. -/
def hexVal (c : Char) : Option Nat :=
  if '0' ≤ c ∧ c ≤ '9' then some (c.toNat - '0'.toNat)
  else if 'a' ≤ c ∧ c ≤ 'f' then some (c.toNat - 'a'.toNat + 10)
  else if 'A' ≤ c ∧ c ≤ 'F' then some (c.toNat - 'A'.toNat + 10)
  else none

/-- Parse the remainder of a JSON string literal (the opening quote
already consumed), handling the escape sequences JSON.parse accepts. -/
def parseStrAux (acc : List Char) : List Char → Option (String × List Char)
  | [] => none
  | c :: cs =>
    if c == '"' then some (String.mk acc.reverse, cs)
    else if c == '\\' then
      (match cs with
       | [] => none
       | e :: cs2 =>
         if e == '"' then parseStrAux ('"' :: acc) cs2
         else if e == '\\' then parseStrAux ('\\' :: acc) cs2
         else if e == '/' then parseStrAux ('/' :: acc) cs2
         else if e == 'b' then parseStrAux (Char.ofNat 8 :: acc) cs2
         else if e == 'f' then parseStrAux (Char.ofNat 12 :: acc) cs2
         else if e == 'n' then parseStrAux ('\n' :: acc) cs2
         else if e == 'r' then parseStrAux ('\r' :: acc) cs2
         else if e == 't' then parseStrAux ('\t' :: acc) cs2
         else if e == 'u' then
           (match cs2 with
            | h1 :: h2 :: h3 :: h4 :: cs3 =>
              (match hexVal h1, hexVal h2, hexVal h3, hexVal h4 with
               | some a, some b, some c2, some d =>
                 parseStrAux (Char.ofNat (((a * 16 + b) * 16 + c2) * 16 + d) :: acc) cs3
               | _, _, _, _ => none)
            | _ => none)
         else none)
    else parseStrAux (c :: acc) cs

/-- Leading decimal digits and the rest. -/
def takeDigits (cs : List Char) : List Char × List Char :=
  (cs.takeWhile Char.isDigit, cs.dropWhile Char.isDigit)

/-- Numeric value of a digit list read left to right. -/
def digitsVal : List Char → Nat → Nat
  | [], acc => acc
  | c :: cs, acc => digitsVal cs (acc * 10 + (c.toNat - '0'.toNat))

/-- Parse an optional fractional part. -/
def parseFrac (cs : List Char) : Option (Rat × List Char) :=
  match cs with
  | '.' :: t =>
    let p := takeDigits t
    if p.1.isEmpty then none
    else some ((digitsVal p.1 0 : Rat) / powTenN p.1.length, p.2)
  | _ => some (0, cs)

/-- Parse an optional exponent part. -/
def parseExp (cs : List Char) : Option (Int × List Char) :=
  match cs with
  | c :: t =>
    if c == 'e' || c == 'E' then
      let st : Int × List Char :=
        match t with
        | '+' :: u => (1, u)
        | '-' :: u => (-1, u)
        | _ => (1, t)
      let p := takeDigits st.2
      if p.1.isEmpty then none else some (st.1 * (digitsVal p.1 0 : Int), p.2)
    else some (0, cs)
  | [] => some (0, [])

/-- Parse a JSON number (sign, integer part, optional fraction and
exponent).  Leading-zero rejection is not modelled; no input considered
here exercises it. -/
def parseNumber (cs : List Char) : Option (Rat × List Char) :=
  let sp : Rat × List Char :=
    match cs with
    | '-' :: t => (-1, t)
    | _ => (1, cs)
  let ip := takeDigits sp.2
  if ip.1.isEmpty then none
  else
    match parseFrac ip.2 with
    | none => none
    | some (fr, cs3) =>
      match parseExp cs3 with
      | none => none
      | some (e, cs4) =>
        some (sp.1 * ((digitsVal ip.1 0 : Rat) + fr) * powTen e, cs4)

mutual

/-- Fuel-indexed JSON value parser; returns the value and the unconsumed
remainder. -/
def parseVal : Nat → List Char → Option (JsonVal × List Char)
  | 0, _ => none
  | n + 1, cs0 =>
    match skipWs cs0 with
    | 'n' :: 'u' :: 'l' :: 'l' :: r => some (JsonVal.jnull, r)
    | 't' :: 'r' :: 'u' :: 'e' :: r => some (JsonVal.jbool true, r)
    | 'f' :: 'a' :: 'l' :: 's' :: 'e' :: r => some (JsonVal.jbool false, r)
    | '"' :: r => (parseStrAux [] r).map (fun p => (JsonVal.jstr p.1, p.2))
    | '[' :: r =>
      (match skipWs r with
       | ']' :: r2 => some (JsonVal.jarr [], r2)
       | r2 => parseArrItems n r2 [])
    | c :: r =>
      if c == lbrace then
        (match skipWs r with
         | d :: r2 =>
           if d == rbrace then some (JsonVal.jobj [], r2)
           else parseObjItems n (d :: r2) []
         | [] => none)
      else (parseNumber (c :: r)).map (fun p => (JsonVal.jnum p.1, p.2))
    | [] => none

/-- Parse the items of a non-empty JSON array, accumulator reversed. -/
def parseArrItems : Nat → List Char → List JsonVal → Option (JsonVal × List Char)
  | 0, _, _ => none
  | n + 1, cs, acc =>
    match parseVal n cs with
    | none => none
    | some (v, r) =>
      match skipWs r with
      | ',' :: r2 => parseArrItems n r2 (v :: acc)
      | ']' :: r2 => some (JsonVal.jarr (v :: acc).reverse, r2)
      | _ => none

/-- Parse the members of a non-empty JSON object, accumulator reversed. -/
def parseObjItems : Nat → List Char → List (String × JsonVal) → Option (JsonVal × List Char)
  | 0, _, _ => none
  | n + 1, cs, acc =>
    match skipWs cs with
    | '"' :: r =>
      (match parseStrAux [] r with
       | none => none
       | some (k, r2) =>
         match skipWs r2 with
         | ':' :: r3 =>
           (match parseVal n r3 with
            | none => none
            | some (v, r4) =>
              match skipWs r4 with
              | ',' :: r5 => parseObjItems n r5 ((k, v) :: acc)
              | d :: r5 =>
                if d == rbrace then some (JsonVal.jobj ((k, v) :: acc).reverse, r5)
                else none
              | [] => none)
         | _ => none)
    | _ => none

end

/-- Model of JSON.parse: parse one value and require only whitespace to
remain, else fail (the TypeScript code observes failure as a thrown
exception caught by its try block). -/
def jsonParse (s : String) : Option JsonVal :=
  match parseVal (2 * s.data.length + 8) s.data with
  | some (v, r) => if (skipWs r).isEmpty then some v else none
  | none => none

/-- Property access obj.name on a parsed JSON value: undefined (none)
unless the value is an object carrying the field; for duplicate keys
JSON.parse keeps the last occurrence. -/
def jGet : JsonVal → String → Option JsonVal
  | JsonVal.jobj fs, k => (fs.reverse.find? (fun p => p.1 == k)).map Prod.snd
  | _, _ => none

/-- JavaScript truthiness of a JSON value (no NaN can come out of
JSON.parse, so the falsy values are null, false, 0 and the empty
string). -/
def jTruthy : JsonVal → Bool
  | JsonVal.jnull => false
  | JsonVal.jbool b => b
  | JsonVal.jnum q => q != 0
  | JsonVal.jstr s => !s.isEmpty
  | JsonVal.jarr _ => true
  | JsonVal.jobj _ => true

/-- Model of the expression (x || d) on an optionally-present field:
the default when the field is absent or falsy. -/
def fieldOrDefault (o : Option JsonVal) (d : JsonVal) : JsonVal :=
  match o with
  | none => d
  | some v => if jTruthy v then v else d

/-- Model of Number(s) on a string: trim, empty means 0, otherwise an
optionally signed decimal with optional fraction and exponent consuming
the whole string, else NaN.  (Hex and Infinity forms are not modelled;
no input considered here exercises them.) -/
def numFromString (s : String) : JsNum :=
  let t := trimChars s.data
  if t.isEmpty then JsNum.num 0
  else
    let sp : Rat × List Char :=
      match t with
      | '-' :: u => (-1, u)
      | '+' :: u => (1, u)
      | _ => (1, t)
    let ip := takeDigits sp.2
    let frp : List Char × List Char :=
      match ip.2 with
      | '.' :: u => takeDigits u
      | _ => ([], ip.2)
    if ip.1.isEmpty && frp.1.isEmpty then JsNum.nan
    else
      match parseExp frp.2 with
      | none => JsNum.nan
      | some (e, rest) =>
        if rest.isEmpty then
          JsNum.num (sp.1 * ((digitsVal ip.1 0 : Rat) +
            (digitsVal frp.1 0 : Rat) / powTenN frp.1.length) * powTen e)
        else JsNum.nan

/-- Model of Number(v) on a parsed JSON value.  A singleton array
coerces through its element string, modelled directly for the flat
element shapes; deeper nesting (never produced by this pipeline) is
approximated as NaN. -/
def jsNumberOfVal : JsonVal → JsNum
  | JsonVal.jnull => JsNum.num 0
  | JsonVal.jbool b => JsNum.num (if b then 1 else 0)
  | JsonVal.jnum q => JsNum.num q
  | JsonVal.jstr s => numFromString s
  | JsonVal.jarr [] => JsNum.num 0
  | JsonVal.jarr [JsonVal.jnum q] => JsNum.num q
  | JsonVal.jarr [JsonVal.jstr s] => numFromString s
  | JsonVal.jarr [JsonVal.jnull] => JsNum.num 0
  | JsonVal.jarr _ => JsNum.nan
  | JsonVal.jobj _ => JsNum.nan

/-- Digits of the fractional part num/den, at most the given number of
them (JavaScript prints a finite decimal; all values reached here
terminate well within the budget). -/
def fracDigitsAux : Nat → Nat → Nat → List Char
  | 0, _, _ => []
  | _ + 1, 0, _ => []
  | f + 1, n, d =>
    Char.ofNat ('0'.toNat + n * 10 / d) :: fracDigitsAux f (n * 10 % d) d

/-- JavaScript-style rendering of a finite number: integers without a
decimal point, otherwise a decimal expansion. -/
def ratToStr (q : Rat) : String :=
  let sgn := if q < 0 then "-" else ""
  let a := q.num.natAbs
  let i := a / q.den
  let r := a % q.den
  if r == 0 then sgn ++ toString i
  else sgn ++ toString i ++ "." ++ String.mk (fracDigitsAux 20 r q.den)

/-- String rendering of a flat JSON value, as used on array elements by
the JavaScript Array toString.  Nested containers (never produced by
this pipeline) are approximated. -/
def jsStringShallow : JsonVal → String
  | JsonVal.jnull => ""
  | JsonVal.jbool true => "true"
  | JsonVal.jbool false => "false"
  | JsonVal.jnum q => ratToStr q
  | JsonVal.jstr s => s
  | JsonVal.jarr _ => ""
  | JsonVal.jobj _ => "[object Object]"

/-- Model of String(v) on a parsed JSON value. -/
def jsStringOfVal : JsonVal → String
  | JsonVal.jnull => "null"
  | JsonVal.jbool true => "true"
  | JsonVal.jbool false => "false"
  | JsonVal.jnum q => ratToStr q
  | JsonVal.jstr s => s
  | JsonVal.jarr xs => String.intercalate "," (xs.map jsStringShallow)
  | JsonVal.jobj _ => "[object Object]"

/-- The curated nutrition facts for one dish. -/
structure Nutri where
  kcal : Rat
  protein_g : Rat
  carbs_g : Rat
  fat_g : Rat
deriving DecidableEq, Repr

/-- The curated table NUTRITION_MAP from src/lib/nutrition.ts, in its
source iteration order. -/
def NUTRITION_MAP : List (String × Nutri) :=
  [("khao man gai", { kcal := 680, protein_g := 35, carbs_g := 85, fat_g := 20 }),
   ("khao moo daeng", { kcal := 650, protein_g := 28, carbs_g := 90, fat_g := 18 }),
   ("pad kra pao moo kai dao", { kcal := 720, protein_g := 35, carbs_g := 75, fat_g := 28 }),
   ("pad thai", { kcal := 600, protein_g := 24, carbs_g := 85, fat_g := 18 }),
   ("som tum", { kcal := 120, protein_g := 3, carbs_g := 20, fat_g := 2 }),
   ("moo ping (2 sticks)", { kcal := 260, protein_g := 18, carbs_g := 8, fat_g := 16 }),
   ("omelet rice", { kcal := 550, protein_g := 20, carbs_g := 75, fat_g := 18 }),
   ("grilled chicken (quarter)", { kcal := 300, protein_g := 40, carbs_g := 0, fat_g := 14 }),
   ("fried rice", { kcal := 630, protein_g := 20, carbs_g := 90, fat_g := 20 })]

/-- Object.keys of the table, in iteration order. -/
def NUTRITION_KEYS : List String := NUTRITION_MAP.map Prod.fst

/-- The table lookup NUTRITION_MAP[key], undefined when absent. -/
def nutritionLookup (k : String) : Option Nutri :=
  (NUTRITION_MAP.find? (fun p => p.1 == k)).map Prod.snd

/-- The normalization step of matchDish: name.toLowerCase().trim(). -/
def dishNorm (name : String) : String := trimStr (lowerStr name)

/-- Phase one of matchDish: the first table key equal to, or contained
as a substring in, the normalized name. -/
def matchPhase1 (norm : String) : Option String :=
  NUTRITION_KEYS.find? (fun k => norm == k || hasSubL norm.data k.data)

/-- Separator class of the split regex in matchDish: whitespace, comma
or hyphen. -/
def sepChar (c : Char) : Bool := jsWsChar c || c == ',' || c == '-'

/-- Split a character list at separator characters, keeping empty
pieces (they are filtered away afterwards, as filter(Boolean) does). -/
def splitToksAux : List Char → List Char → List (List Char)
  | [], cur => [cur.reverse]
  | c :: cs, cur =>
    if sepChar c then cur.reverse :: splitToksAux cs []
    else splitToksAux cs (c :: cur)

/-- Tokens of a string: split on whitespace, comma, hyphen and drop
empty pieces. -/
def tokensOf (s : String) : List String :=
  ((splitToksAux s.data []).filter (fun t => !t.isEmpty)).map String.mk

/-- The token set of a string: first-occurrence deduplication, as a
JavaScript Set built from the token list. -/
def tokSet (s : String) : List String := (tokensOf s).eraseDups

/-- Token-overlap score of a table key against the token list of the
normalized input: the number of distinct key tokens present among the
input tokens. -/
def tokScore (normTokens : List String) (k : String) : Nat :=
  (tokSet k).countP (fun t => normTokens.contains t)

/-- The scoring loop of matchDish: fold over the keys keeping the best
(strictly greater) score and its key. -/
def scoreLoop (normTokens : List String) : List String → Option String → Nat → Option String × Nat
  | [], bestKey, bestScore => (bestKey, bestScore)
  | k :: ks, bestKey, bestScore =>
    let sc := tokScore normTokens k
    if bestScore < sc then scoreLoop normTokens ks (some k) sc
    else scoreLoop normTokens ks bestKey bestScore

/-- matchDish from src/lib/nutrition.ts. -/
def matchDish (name : String) : Option String :=
  let norm := dishNorm name
  match matchPhase1 norm with
  | some k => some k
  | none =>
    let r := scoreLoop (tokensOf norm) NUTRITION_KEYS none 0
    if 1 ≤ r.2 then r.1 else none

/-- One dish candidate produced by analyzeImage. -/
structure DishCandidate where
  dish_name : String
  portion : String
  confidence : JsNum
deriving DecidableEq, Repr

/-- The sentinel candidate used by analyzeImage when parsing does not
yield a non-empty array. -/
def unknownCandidate : DishCandidate :=
  { dish_name := "unknown", portion := "", confidence := JsNum.num 0 }

/-- Mapping of one parsed array element to a DishCandidate, with the
source defaults: String(item.dish_name || "unknown").trim() and so on,
and confidence through Number(item.confidence || 0). -/
def mkCandidate (item : JsonVal) : DishCandidate :=
  { dish_name := trimStr (jsStringOfVal (fieldOrDefault (jGet item "dish_name") (JsonVal.jstr "unknown"))),
    portion := trimStr (jsStringOfVal (fieldOrDefault (jGet item "portion") (JsonVal.jstr ""))),
    confidence := jsNumberOfVal (fieldOrDefault (jGet item "confidence") (JsonVal.jnum 0)) }

/-- The text handed to JSON.parse by analyzeImage: the greedy bracket
match over the trimmed response, defaulting to the empty array text. -/
def arrJsonText (responseText : String) : String :=
  (extractDelim '[' ']' (trimStr responseText)).getD "[]"

/-- analyzeImage from the source, downstream of the model call: extract
a bracketed substring, parse it, map a non-empty array to candidates,
and degrade to the single unknown candidate otherwise. -/
def analyzeImage (responseText : String) : List DishCandidate :=
  match jsonParse (arrJsonText responseText) with
  | some (JsonVal.jarr (x :: xs)) => (x :: xs).map mkCandidate
  | _ => [unknownCandidate]

/-- The result record of estimateNutrition: four numeric fields and the
provenance tag. -/
structure NutriResult where
  kcal : JsNum
  protein_g : JsNum
  carbs_g : JsNum
  fat_g : JsNum
  source : String
deriving DecidableEq, Repr

/-- The text handed to JSON.parse by estimateNutrition: the greedy brace
match over the trimmed response, defaulting to the empty string (whose
parse fails). -/
def braceJsonText (responseText : String) : String :=
  (extractDelim lbrace rbrace (trimStr responseText)).getD ""

/-- One coerced field of the model reply: Number(j.f ?? d), so the
default substitutes only for an absent or null field, and any other
value goes through Number coercion. -/
def numField (j : JsonVal) (name : String) (d : Rat) : JsNum :=
  match jGet j name with
  | none => JsNum.num d
  | some JsonVal.jnull => JsNum.num d
  | some v => jsNumberOfVal v

/-- estimateNutrition from the source, downstream of the model call.
The portion argument only feeds the prompt in the source, so it does
not affect the result; it is kept for signature fidelity.  The spread
of an undefined lookup would leave the four fields undefined. -/
def estimateNutrition (dishName : String) (_portionArg : Option String) (responseText : String) : NutriResult :=
  match matchDish dishName with
  | some key =>
    (match nutritionLookup key with
     | some n =>
       { kcal := JsNum.num n.kcal, protein_g := JsNum.num n.protein_g,
         carbs_g := JsNum.num n.carbs_g, fat_g := JsNum.num n.fat_g,
         source := "map:" ++ key }
     | none =>
       { kcal := JsNum.undef, protein_g := JsNum.undef,
         carbs_g := JsNum.undef, fat_g := JsNum.undef,
         source := "map:" ++ key })
  | none =>
    match jsonParse (braceJsonText responseText) with
    | some j =>
      { kcal := numField j "kcal" 500, protein_g := numField j "protein_g" 20,
        carbs_g := numField j "carbs_g" 60, fat_g := numField j "fat_g" 18,
        source := "gemini" }
    | none =>
      { kcal := JsNum.num 500, protein_g := JsNum.num 20,
        carbs_g := JsNum.num 60, fat_g := JsNum.num 18,
        source := "default" }

/-- JavaScript truthiness of a numeric value: only a non-zero finite
number is truthy. -/
def JsNum.truthy : JsNum → Bool
  | JsNum.num q => q != 0
  | _ => false

/-- Math.round on a JavaScript numeric value: half-up flooring for
finite numbers, 0 for null, NaN otherwise. -/
def jsRound : JsNum → JsNum
  | JsNum.num q => JsNum.num ((⌊q + 1 / 2⌋ : Int) : Rat)
  | JsNum.jsnull => JsNum.num 0
  | _ => JsNum.nan

/-- Template-string interpolation of a numeric value. -/
def jsNumDisplay : JsNum → String
  | JsNum.num q => ratToStr q
  | JsNum.nan => "NaN"
  | JsNum.undef => "undefined"
  | JsNum.jsnull => "null"

/-- The join of the source: list.join with a newline separator. -/
def joinNl : List String → String
  | [] => ""
  | [x] => x
  | x :: y :: xs => x ++ "\n" ++ joinNl (y :: xs)

/-- fmtMealLine from the source: the main line plus the macro lines of
the truthy macro values. -/
def fmtMealLine (name : String) (kcal p c f : JsNum) : String :=
  let mainLine := name ++ " — ~" ++ jsNumDisplay (jsRound kcal) ++ " kcal"
  let macroParts :=
    (if p.truthy then ["  Protein: " ++ jsNumDisplay (jsRound p) ++ "g"] else []) ++
    (if c.truthy then ["  Carbs: " ++ jsNumDisplay (jsRound c) ++ "g"] else []) ++
    (if f.truthy then ["  Fat: " ++ jsNumDisplay (jsRound f) ++ "g"] else [])
  let macroString := if macroParts.length > 0 then "\n" ++ joinNl macroParts else ""
  mainLine ++ macroString

/-- One row prepared for the meals insert, as built by the image
handler (user id, capture time, image url and raw payload omitted: they
do not feed the reply logic). -/
structure MealRow where
  dish_name : String
  portion : Option String
  confidence : JsNum
  calories_kcal : JsNum
  protein_g : JsNum
  carbs_g : JsNum
  fat_g : JsNum
deriving DecidableEq, Repr

/-- Row construction of the image handler: dish_name with the
falsy-to-unknown default, portion with the falsy-to-null default,
confidence kept (it is never nullish), nutrition fields copied. -/
def mkMealRow (item : DishCandidate) (nutrition : NutriResult) : MealRow :=
  { dish_name := if item.dish_name.isEmpty then "unknown" else item.dish_name,
    portion := if item.portion.isEmpty then none else some item.portion,
    confidence := item.confidence,
    calories_kcal := nutrition.kcal, protein_g := nutrition.protein_g,
    carbs_g := nutrition.carbs_g, fat_g := nutrition.fat_g }

/-- JavaScript addition of two numeric values, as used by the kcal
accumulation. -/
def jsAdd : JsNum → JsNum → JsNum
  | JsNum.num a, JsNum.num b => JsNum.num (a + b)
  | JsNum.num a, JsNum.jsnull => JsNum.num a
  | JsNum.jsnull, JsNum.num b => JsNum.num b
  | JsNum.jsnull, JsNum.jsnull => JsNum.num 0
  | _, _ => JsNum.nan

/-- The bullet line of one row in the reply. -/
def mealLineOf (r : MealRow) : String :=
  "• " ++ fmtMealLine r.dish_name r.calories_kcal r.protein_g r.carbs_g r.fat_g

/-- The forEach accumulation of the image handler reply: rows whose
lowercased dish name is not the unknown sentinel contribute their kcal
to the total and their line to the list. -/
def replyFold : List MealRow → JsNum × List String → JsNum × List String
  | [], acc => acc
  | r :: rs, (tot, items) =>
    if lowerStr r.dish_name != "unknown" then
      replyFold rs (jsAdd tot r.calories_kcal, items ++ [mealLineOf r])
    else replyFold rs (tot, items)

/-- The fallback message pushed when no identifiable dish remains. -/
def cantIdentifyMsg : String := "Sorry, I couldn\x27t identify any dishes in that photo."

/-- The reply text the image handler pushes for a list of prepared
rows: the fallback when every row was filtered out, otherwise the
Logged header joined with the item lines. -/
def buildImageReply (mealRows : List MealRow) : String :=
  let acc := replyFold mealRows (JsNum.num 0, [])
  if acc.2.isEmpty then cantIdentifyMsg
  else
    joinNl (("Logged " ++ toString acc.2.length ++ " items — Total ~" ++
      jsNumDisplay (jsRound acc.1) ++ " kcal") :: acc.2)

/-- The summary span. -/
inductive Span : Type where
  | day : Span
  | week : Span
deriving DecidableEq, Repr

/-- Interpolated text of the span. -/
def spanStr : Span → String
  | Span.day => "day"
  | Span.week => "week"

/-- One meal row as returned by the summary query (capture time is only
used for the query bounds and ordering, which the query input already
reflects). -/
structure Meal where
  dish_name : String
  calories_kcal : JsNum
  protein_g : JsNum
  carbs_g : JsNum
  fat_g : JsNum
deriving DecidableEq, Repr

/-- Number(x || 0): the numeric value for a truthy finite number and 0
for every falsy or non-finite value. -/
def numOr0 : JsNum → Rat
  | JsNum.num q => q
  | _ => 0

/-- The totals reduce of summarize. -/
def mealTotals (meals : List Meal) : Rat × Rat × Rat × Rat :=
  meals.foldl
    (fun acc m =>
      (acc.1 + numOr0 m.calories_kcal, acc.2.1 + numOr0 m.protein_g,
       acc.2.2.1 + numOr0 m.carbs_g, acc.2.2.2 + numOr0 m.fat_g))
    (0, 0, 0, 0)

/-- Rounded display of an exact total. -/
def roundDisp (q : Rat) : String := toString (⌊q + 1 / 2⌋ : Int)

/-- summarize from the source, downstream of the user lookup and the
range query: the resolved user (none when unknown) and the rows the
window query returned are passed in. -/
def summarize (userId : Option String) (meals : List Meal) (sp : Span) : String :=
  match userId with
  | none => "No meals yet."
  | some _ =>
    match meals with
    | [] => "No meals in this " ++ spanStr sp ++ "."
    | m :: ms =>
      let t := mealTotals (m :: ms)
      let lines := (m :: ms).map (fun mm =>
        "• " ++ fmtMealLine mm.dish_name mm.calories_kcal mm.protein_g mm.carbs_g mm.fat_g)
      joinNl ((("📊 " ++ (match sp with | Span.day => "Today" | Span.week => "This week") ++ " summary") ::
        ("Total: ~" ++ roundDisp t.1 ++ " kcal (P" ++ roundDisp t.2.1 ++ " / C" ++
          roundDisp t.2.2.1 ++ " / F" ++ roundDisp t.2.2.2 ++ ")") :: "" :: lines))

/-- Is the optional field value absent or null: exactly the values the
nullish coalescing defaults of estimateNutrition catch. -/
def nullishB : Option JsonVal → Bool
  | none => true
  | some JsonVal.jnull => true
  | _ => false

/-- Is the numeric result a non-negative finite number. -/
def jsNonNegB : JsNum → Bool
  | JsNum.num q => decide (0 ≤ q)
  | _ => false

/-- Are all four fields of the estimation result non-negative finite
numbers. -/
def resultNonNegB (r : NutriResult) : Bool :=
  jsNonNegB r.kcal && jsNonNegB r.protein_g && jsNonNegB r.carbs_g && jsNonNegB r.fat_g

/-- Is one optional model field benign: absent, null, or a
non-negative JSON number. -/
def fieldNonNegB : Option JsonVal → Bool
  | none => true
  | some JsonVal.jnull => true
  | some (JsonVal.jnum q) => decide (0 ≤ q)
  | _ => false

/-- The named field of the object the generative reply parses to, seen
through the whole extraction pipeline (undefined when nothing parses). -/
def modelField (t : String) (name : String) : Option JsonVal :=
  match jsonParse (braceJsonText t) with
  | some j => jGet j name
  | none => none

/-- Are all four model fields of the reply benign. -/
def modelFieldsNonNegB (t : String) : Bool :=
  fieldNonNegB (modelField t "kcal") && fieldNonNegB (modelField t "protein_g") &&
  fieldNonNegB (modelField t "carbs_g") && fieldNonNegB (modelField t "fat_g")

theorem numField_nullish (j : JsonVal) (name : String) (d : Rat)
    (h : nullishB (jGet j name) = true) : numField j name d = JsNum.num d := by
  cases hg : jGet j name with
  | none => simp [numField, hg]
  | some v => cases v <;> simp_all [numField, nullishB, hg]

theorem numField_nonneg (j : JsonVal) (name : String) (d : Rat) (hd : 0 ≤ d)
    (h : fieldNonNegB (jGet j name) = true) : jsNonNegB (numField j name d) = true := by
  cases hg : jGet j name with
  | none => simp [numField, hg, jsNonNegB, hd]
  | some v =>
    cases v <;> simp_all [numField, fieldNonNegB, hg, jsNonNegB, jsNumberOfVal, hd]

/-- C5: for every key of the curated table, matchDish returns the key
itself: the matcher is the identity on table keys. -/
theorem C5_match_key_identity : ∀ k ∈ NUTRITION_KEYS, matchDish k = some k := by
  decide

/-- Witness for C5 at the key pad thai. -/
theorem C5_match_key_identity_witness :
    ("pad thai" ∈ NUTRITION_KEYS) ∧ matchDish "pad thai" = some "pad thai" :=
  ⟨by decide, C5_match_key_identity "pad thai" (by decide)⟩

/-- C1 counterexample: on an unmatched dish whose model reply parses,
the returned source tag is the literal gemini, which is neither model
nor default, refuting the claimed tag form of the generative path. -/
theorem C1_counterexample :
    (estimateNutrition "zzz" none "\x7b\"kcal\":450\x7d").source = "gemini" ∧
    ("gemini" : String) ≠ "model" ∧ ("gemini" : String) ≠ "default" := by
  with_unfolding_all decide

/-- C1 (amended): every estimation result carries a source tag of one
of exactly three forms: the literal default, the literal gemini (the
generative path), or map: followed by the matched table key. -/
theorem C1_source_tag_forms (dn : String) (p : Option String) (t : String) :
    (estimateNutrition dn p t).source = "default" ∨
    (estimateNutrition dn p t).source = "gemini" ∨
    ∃ k, matchDish dn = some k ∧ (estimateNutrition dn p t).source = "map:" ++ k := by
  cases h : matchDish dn with
  | some key =>
    refine Or.inr (Or.inr ⟨key, rfl, ?_⟩)
    cases hl : nutritionLookup key <;> simp [estimateNutrition, h, hl]
  | none =>
    cases hp : jsonParse (braceJsonText t) with
    | none => exact Or.inl (by simp [estimateNutrition, h, hp])
    | some j => exact Or.inr (Or.inl (by simp [estimateNutrition, h, hp]))

/-- C2 counterexample: for a parsed model reply carrying a negative
kcal and a non-numeric protein field, the negative number is passed
through and the non-numeric field becomes NaN instead of its default
20, refuting both the non-negativity and the default-substitution of
non-numeric fields. -/
theorem C2_counterexample :
    (estimateNutrition "zzz" none "\x7b\"kcal\":-5,\"protein_g\":\"abc\"\x7d").kcal = JsNum.num (-5) ∧
    (estimateNutrition "zzz" none "\x7b\"kcal\":-5,\"protein_g\":\"abc\"\x7d").protein_g = JsNum.nan ∧
    JsNum.nan ≠ JsNum.num 20 ∧ ¬ ((0 : Rat) ≤ (-5 : Rat)) := by
  with_unfolding_all decide

/-- C2 (amended): estimateNutrition is total, and on the generative
path a field that is absent or null is replaced by its fixed default
(kcal 500, protein 20, carbs 60, fat 18); whenever every present field
is a non-negative JSON number, all four returned fields are
non-negative numbers.  A present non-numeric or negative field is
passed through Number coercion unchanged. -/
theorem C2_model_defaults (dn : String) (p : Option String) (t : String)
    (hm : matchDish dn = none) :
    ((nullishB (modelField t "kcal") = true → (estimateNutrition dn p t).kcal = JsNum.num 500) ∧
     (nullishB (modelField t "protein_g") = true → (estimateNutrition dn p t).protein_g = JsNum.num 20) ∧
     (nullishB (modelField t "carbs_g") = true → (estimateNutrition dn p t).carbs_g = JsNum.num 60) ∧
     (nullishB (modelField t "fat_g") = true → (estimateNutrition dn p t).fat_g = JsNum.num 18)) ∧
    (modelFieldsNonNegB t = true → resultNonNegB (estimateNutrition dn p t) = true) := by
  cases hp : jsonParse (braceJsonText t) with
  | none =>
    constructor
    · refine ⟨?_, ?_, ?_, ?_⟩ <;>
        (intro _; simp [estimateNutrition, hm, hp])
    · intro _
      simp [estimateNutrition, hm, hp, resultNonNegB, jsNonNegB]
  | some j =>
    have he : estimateNutrition dn p t =
        { kcal := numField j "kcal" 500, protein_g := numField j "protein_g" 20,
          carbs_g := numField j "carbs_g" 60, fat_g := numField j "fat_g" 18,
          source := "gemini" } := by
      simp [estimateNutrition, hm, hp]
    have hf : ∀ name, modelField t name = jGet j name := by
      intro name; simp [modelField, hp]
    constructor
    · refine ⟨?_, ?_, ?_, ?_⟩ <;>
        (intro hnm; rw [he]; exact numField_nullish _ _ _ (by rw [← hf]; exact hnm))
    · intro hok
      have h4 := hok
      simp only [modelFieldsNonNegB, Bool.and_eq_true, hf] at h4
      rw [he]
      simp only [resultNonNegB, Bool.and_eq_true]
      exact ⟨⟨⟨numField_nonneg _ _ _ (by norm_num) h4.1.1.1,
        numField_nonneg _ _ _ (by norm_num) h4.1.1.2⟩,
        numField_nonneg _ _ _ (by norm_num) h4.1.2⟩,
        numField_nonneg _ _ _ (by norm_num) h4.2⟩

/-- Witness for C2 (amended) on a reply carrying only a protein field. -/
theorem C2_model_defaults_witness :
    (estimateNutrition "zzz" none "\x7b\"protein_g\":3\x7d").kcal = JsNum.num 500 ∧
    resultNonNegB (estimateNutrition "zzz" none "\x7b\"protein_g\":3\x7d") = true :=
  ⟨(C2_model_defaults "zzz" none "\x7b\"protein_g\":3\x7d" (by decide)).1.1
      (by with_unfolding_all decide),
   (C2_model_defaults "zzz" none "\x7b\"protein_g\":3\x7d" (by decide)).2
      (by with_unfolding_all decide)⟩

/-- Does the numeric value lie in the closed unit interval. -/
def confIn01 : JsNum → Prop
  | JsNum.num q => 0 ≤ q ∧ q ≤ 1
  | _ => False

/-- Is the confidence field of one parsed item benign: absent, null, a
boolean, an empty string, or a number already in the unit interval. -/
def itemConfOkB (v : JsonVal) : Bool :=
  match jGet v "confidence" with
  | none => true
  | some JsonVal.jnull => true
  | some (JsonVal.jbool _) => true
  | some (JsonVal.jstr s) => s.isEmpty
  | some (JsonVal.jnum q) => decide (0 ≤ q) && decide (q ≤ 1)
  | some _ => false

/-- Are the confidence fields of every item of the parsed model reply
benign (vacuously true when nothing parses to an array: those paths
yield the sentinel). -/
def confFieldsOkB (t : String) : Bool :=
  match jsonParse (arrJsonText t) with
  | some (JsonVal.jarr xs) => xs.all itemConfOkB
  | _ => true

theorem mkCandidate_conf (v : JsonVal) (h : itemConfOkB v = true) :
    confIn01 (mkCandidate v).confidence := by
  have hc : (mkCandidate v).confidence =
      jsNumberOfVal (fieldOrDefault (jGet v "confidence") (JsonVal.jnum 0)) := rfl
  rw [hc]
  cases hg : jGet v "confidence" with
  | none => simp [fieldOrDefault, jsNumberOfVal, confIn01]
  | some w =>
    cases w with
    | jnull => simp [fieldOrDefault, jTruthy, jsNumberOfVal, confIn01]
    | jbool b =>
      cases b <;> simp [fieldOrDefault, jTruthy, jsNumberOfVal, confIn01]
    | jnum q =>
      simp only [itemConfOkB, hg, Bool.and_eq_true, decide_eq_true_eq] at h
      by_cases hq : q = 0
      · simp [fieldOrDefault, jTruthy, hq, jsNumberOfVal, confIn01]
      · simp [fieldOrDefault, jTruthy, bne_iff_ne, hq, jsNumberOfVal, confIn01, h]
    | jstr s =>
      simp only [itemConfOkB, hg] at h
      simp [fieldOrDefault, jTruthy, h, jsNumberOfVal, confIn01]
    | jarr xs => simp [itemConfOkB, hg] at h
    | jobj fs => simp [itemConfOkB, hg] at h

/-- C3 counterexample: a model reply reporting confidence 2 produces a
candidate whose confidence is the number 2, outside the unit interval:
the code does not clamp. -/
theorem C3_counterexample :
    analyzeImage "[\x7b\"dish_name\":\"x\",\"confidence\":2\x7d]" =
      [{ dish_name := "x", portion := "", confidence := JsNum.num 2 }] ∧
    ¬ confIn01 (JsNum.num 2) := by
  constructor
  · with_unfolding_all decide
  · intro h; exact absurd h.2 (by norm_num)

/-- C3 (amended): a missing or falsy confidence field defaults to the
number 0, and every candidate confidence lies in the unit interval
provided each parsed item reports a confidence that is absent, falsy,
or a number already in the unit interval; the coercion itself is
unclamped, as the counterexample shows. -/
theorem C3_confidence_conditional (t : String) (h : confFieldsOkB t = true) :
    ∀ c ∈ analyzeImage t, confIn01 c.confidence := by
  intro c hc
  cases hp : jsonParse (arrJsonText t) with
  | none =>
    rw [analyzeImage, hp] at hc
    simp at hc
    subst hc
    simp [unknownCandidate, confIn01]
  | some j =>
    cases j with
    | jarr xs =>
      cases xs with
      | nil =>
        rw [analyzeImage, hp] at hc
        simp at hc
        subst hc
        simp [unknownCandidate, confIn01]
      | cons x xs2 =>
        rw [analyzeImage, hp] at hc
        simp only [List.mem_map] at hc
        obtain ⟨v, hv, rfl⟩ := hc
        apply mkCandidate_conf
        rw [confFieldsOkB, hp] at h
        exact (List.all_eq_true.mp h) v hv
    | jnull =>
      rw [analyzeImage, hp] at hc
      simp at hc; subst hc; simp [unknownCandidate, confIn01]
    | jbool b =>
      rw [analyzeImage, hp] at hc
      simp at hc; subst hc; simp [unknownCandidate, confIn01]
    | jnum q =>
      rw [analyzeImage, hp] at hc
      simp at hc; subst hc; simp [unknownCandidate, confIn01]
    | jstr s =>
      rw [analyzeImage, hp] at hc
      simp at hc; subst hc; simp [unknownCandidate, confIn01]
    | jobj fs =>
      rw [analyzeImage, hp] at hc
      simp at hc; subst hc; simp [unknownCandidate, confIn01]

/-- Witness for C3 (amended) on a reply reporting confidence 0.8: the
produced candidate has its confidence in the unit interval. -/
theorem C3_confidence_conditional_witness :
    confIn01 ({ dish_name := "a", portion := "", confidence := JsNum.num (4 / 5) } : DishCandidate).confidence :=
  C3_confidence_conditional "[\x7b\"dish_name\":\"a\",\"confidence\":0.8\x7d]"
    (by with_unfolding_all decide)
    { dish_name := "a", portion := "", confidence := JsNum.num (4 / 5) }
    (by with_unfolding_all decide)

/-- Did the extraction and parse of the analyzer reply produce a
non-empty array. -/
def parsedNonEmptyArrB (t : String) : Bool :=
  match jsonParse (arrJsonText t) with
  | some (JsonVal.jarr (_ :: _)) => true
  | _ => false

/-- C7: for every model response text, analyzeImage returns a
non-empty candidate list, and whenever extraction or parsing does not
produce a non-empty array it returns exactly the single unknown
sentinel candidate instead of failing. -/
theorem C7_nonempty_and_sentinel (t : String) :
    analyzeImage t ≠ [] ∧
    (parsedNonEmptyArrB t = false → analyzeImage t = [unknownCandidate]) := by
  cases hp : jsonParse (arrJsonText t) with
  | none => simp [analyzeImage, hp, parsedNonEmptyArrB]
  | some j =>
    cases j with
    | jarr xs =>
      cases xs with
      | nil => simp [analyzeImage, hp, parsedNonEmptyArrB]
      | cons x xs2 => simp [analyzeImage, hp, parsedNonEmptyArrB]
    | jnull => simp [analyzeImage, hp, parsedNonEmptyArrB]
    | jbool b => simp [analyzeImage, hp, parsedNonEmptyArrB]
    | jnum q => simp [analyzeImage, hp, parsedNonEmptyArrB]
    | jstr s => simp [analyzeImage, hp, parsedNonEmptyArrB]
    | jobj fs => simp [analyzeImage, hp, parsedNonEmptyArrB]

/-- Witness for C7 on a reply with no JSON array at all. -/
theorem C7_nonempty_and_sentinel_witness :
    analyzeImage "no json here" = [unknownCandidate] :=
  (C7_nonempty_and_sentinel "no json here").2 (by decide)

theorem scoreLoop_mem (nt : List String) :
    ∀ ks bk bs k, (scoreLoop nt ks bk bs).1 = some k → bk = some k ∨ k ∈ ks := by
  intro ks
  induction ks with
  | nil => intro bk bs k h; rw [scoreLoop] at h; exact Or.inl h
  | cons a as ih =>
    intro bk bs k h
    rw [scoreLoop] at h
    by_cases hlt : bs < tokScore nt a
    · simp only [hlt, if_true] at h
      rcases ih (some a) (tokScore nt a) k h with h2 | h2
      · exact Or.inr (by simp [Option.some.inj h2])
      · exact Or.inr (List.mem_cons_of_mem a h2)
    · simp only [hlt, if_false] at h
      rcases ih bk bs k h with h2 | h2
      · exact Or.inl h2
      · exact Or.inr (List.mem_cons_of_mem a h2)

theorem lookup_isSome_of_mem :
    ∀ (l : List (String × Nutri)) (k : String), k ∈ l.map Prod.fst →
      ∃ n, ((l.find? (fun p => p.1 == k)).map Prod.snd) = some n := by
  intro l
  induction l with
  | nil => simp
  | cons a as ih =>
    intro k hk
    by_cases h : (a.1 == k) = true
    · exact ⟨a.2, by simp [List.find?, h]⟩
    · have hk2 : k ∈ as.map Prod.fst := by
        rcases List.mem_cons.mp hk with h2 | h2
        · exact absurd (by simp [h2]) h
        · exact h2
      obtain ⟨n, hn⟩ := ih k hk2
      exact ⟨n, by simp only [List.find?, h]; exact hn⟩

theorem matchDish_mem_keys (s k : String) (h : matchDish s = some k) : k ∈ NUTRITION_KEYS := by
  rw [matchDish] at h
  cases h1 : matchPhase1 (dishNorm s) with
  | some k2 =>
    rw [h1] at h
    have hk2 : k2 = k := Option.some.inj h
    subst hk2
    exact List.mem_of_find?_eq_some h1
  | none =>
    rw [h1] at h
    by_cases h2 : 1 ≤ (scoreLoop (tokensOf (dishNorm s)) NUTRITION_KEYS none 0).2
    · simp only [h2, if_true] at h
      rcases scoreLoop_mem _ _ _ _ _ h with h3 | h3
      · exact absurd h3 (by simp)
      · exact h3
    · simp only [h2, if_false] at h
      exact absurd h (by simp)

/-- C10: every non-null result of matchDish is a key present in the
curated table, so the lookup in the map branch of estimateNutrition is
always defined and that branch returns exactly the stored facts with
the map tag; the undefined-lookup branch is unreachable. -/
theorem C10_map_branch (s k : String) (h : matchDish s = some k) :
    ∃ n, nutritionLookup k = some n ∧
      ∀ p t, estimateNutrition s p t =
        { kcal := JsNum.num n.kcal, protein_g := JsNum.num n.protein_g,
          carbs_g := JsNum.num n.carbs_g, fat_g := JsNum.num n.fat_g,
          source := "map:" ++ k } := by
  obtain ⟨n, hn⟩ := lookup_isSome_of_mem NUTRITION_MAP k (matchDish_mem_keys s k h)
  have hn2 : nutritionLookup k = some n := hn
  exact ⟨n, hn2, fun p t => by simp [estimateNutrition, h, hn2]⟩

/-- Witness for C10 at the uppercase spec example input. -/
theorem C10_map_branch_witness :
    ∃ n, nutritionLookup "pad thai" = some n ∧
      ∀ p t, estimateNutrition "PAD THAI" p t =
        { kcal := JsNum.num n.kcal, protein_g := JsNum.num n.protein_g,
          carbs_g := JsNum.num n.carbs_g, fat_g := JsNum.num n.fat_g,
          source := "map:" ++ "pad thai" } :=
  C10_map_branch "PAD THAI" "pad thai" (by decide)

theorem replyFold_spec :
    ∀ (rows : List MealRow) (tot : JsNum) (items : List String),
      replyFold rows (tot, items) =
        (((rows.filter (fun r => lowerStr r.dish_name != "unknown")).map
            (fun r => r.calories_kcal)).foldl jsAdd tot,
         items ++ (rows.filter (fun r => lowerStr r.dish_name != "unknown")).map mealLineOf) := by
  intro rows
  induction rows with
  | nil => intro tot items; simp [replyFold]
  | cons r rs ih =>
    intro tot items
    rw [replyFold, List.filter_cons]
    by_cases h : (lowerStr r.dish_name != "unknown") = true
    · simp [h, ih]
    · rw [Bool.not_eq_true] at h
      simp [h, ih]

/-- C8: rows whose dish name is the unknown sentinel are excluded from
both the displayed item list and the displayed kcal total, and when
every row is unknown the reply is the distinct cannot-identify message,
not a zero-item Logged summary. -/
theorem C8_unknown_excluded (rows : List MealRow) :
    (replyFold rows (JsNum.num 0, [])).2 =
      (rows.filter (fun r => lowerStr r.dish_name != "unknown")).map mealLineOf ∧
    (replyFold rows (JsNum.num 0, [])).1 =
      ((rows.filter (fun r => lowerStr r.dish_name != "unknown")).map
        (fun r => r.calories_kcal)).foldl jsAdd (JsNum.num 0) ∧
    ((∀ r ∈ rows, r.dish_name = "unknown") →
      buildImageReply rows = cantIdentifyMsg ∧
      buildImageReply rows ≠ "Logged 0 items — Total ~0 kcal") := by
  refine ⟨by simp [replyFold_spec], by simp [replyFold_spec], ?_⟩
  intro hall
  have hfil : rows.filter (fun r => lowerStr r.dish_name != "unknown") = [] := by
    rw [List.filter_eq_nil_iff]
    intro r hr
    rw [hall r hr]
    decide
  have hmsg : buildImageReply rows = cantIdentifyMsg := by
    rw [buildImageReply, replyFold_spec, hfil]
    simp
  exact ⟨hmsg, by rw [hmsg]; decide⟩

/-- A single all-unknown row used to witness C8. -/
def c8row : MealRow :=
  { dish_name := "unknown", portion := none, confidence := JsNum.num 0,
    calories_kcal := JsNum.num 500, protein_g := JsNum.num 20,
    carbs_g := JsNum.num 60, fat_g := JsNum.num 18 }

/-- Witness for C8 on a single unknown row. -/
theorem C8_unknown_excluded_witness :
    buildImageReply [c8row] = cantIdentifyMsg ∧
    buildImageReply [c8row] ≠ "Logged 0 items — Total ~0 kcal" :=
  (C8_unknown_excluded [c8row]).2.2 (by decide)

theorem ne_of_headChar (a b : String) (ca cb : Char) (ha : a.data.head? = some ca)
    (hb : b.data.head? = some cb) (hne : ca ≠ cb) : a ≠ b := by
  intro h
  subst h
  rw [ha] at hb
  exact hne (Option.some.inj hb)

/-- C9: summarize returns the no-meals-yet sentinel for an unknown
user, the span-specific no-meals-in-this-window sentinel for a known
user with an empty window, the two sentinels are distinct, and a
non-empty window produces a summary distinct from both sentinels. -/
theorem C9_sentinels (uid : String) (ms : List Meal) (sp : Span) :
    summarize none ms sp = "No meals yet." ∧
    summarize (some uid) [] sp = "No meals in this " ++ spanStr sp ++ "." ∧
    ("No meals yet." : String) ≠ "No meals in this " ++ spanStr sp ++ "." ∧
    (ms ≠ [] →
      summarize (some uid) ms sp ≠ "No meals yet." ∧
      summarize (some uid) ms sp ≠ "No meals in this " ++ spanStr sp ++ ".") := by
  refine ⟨rfl, rfl, by cases sp <;> decide, ?_⟩
  intro hne
  cases ms with
  | nil => exact absurd rfl hne
  | cons m ms2 =>
    constructor
    · exact ne_of_headChar _ _ '📊' 'N' rfl rfl (by decide)
    · exact ne_of_headChar _ _ '📊' 'N' rfl rfl (by decide)

/-- A single meal row used to witness C9. -/
def c9meal : Meal :=
  { dish_name := "pad thai", calories_kcal := JsNum.num 600,
    protein_g := JsNum.num 24, carbs_g := JsNum.num 85, fat_g := JsNum.num 18 }

/-- Witness for C9 on a one-meal window. -/
theorem C9_sentinels_witness :
    summarize (some "u") [c9meal] Span.day ≠ "No meals yet." ∧
    summarize (some "u") [c9meal] Span.day ≠ "No meals in this " ++ spanStr Span.day ++ "." :=
  (C9_sentinels "u" [c9meal] Span.day).2.2.2 (by decide)

theorem scoreLoop_ge (nt : List String) :
    ∀ ks bk bs, bs ≤ (scoreLoop nt ks bk bs).2 := by
  intro ks
  induction ks with
  | nil => intro bk bs; exact Nat.le_refl bs
  | cons a as ih =>
    intro bk bs
    simp only [scoreLoop]
    by_cases h : bs < tokScore nt a
    · simp only [h, if_true]
      exact Nat.le_trans (Nat.le_of_lt h) (ih (some a) (tokScore nt a))
    · simp only [h, if_false]
      exact ih bk bs

theorem scoreLoop_le (nt : List String) :
    ∀ ks bk bs k2, k2 ∈ ks → tokScore nt k2 ≤ (scoreLoop nt ks bk bs).2 := by
  intro ks
  induction ks with
  | nil => intro bk bs k2 h; exact absurd h (List.not_mem_nil k2)
  | cons a as ih =>
    intro bk bs k2 h
    simp only [scoreLoop]
    rcases List.mem_cons.mp h with rfl | h2
    · by_cases hlt : bs < tokScore nt k2
      · simp only [hlt, if_true]
        exact scoreLoop_ge nt as (some k2) (tokScore nt k2)
      · simp only [hlt, if_false]
        exact Nat.le_trans (Nat.le_of_not_lt hlt) (scoreLoop_ge nt as bk bs)
    · by_cases hlt : bs < tokScore nt a
      · simp only [hlt, if_true]; exact ih _ _ _ h2
      · simp only [hlt, if_false]; exact ih _ _ _ h2

theorem scoreLoop_const (nt : List String) :
    ∀ ks bk bs, (∀ k ∈ ks, tokScore nt k ≤ bs) → scoreLoop nt ks bk bs = (bk, bs) := by
  intro ks
  induction ks with
  | nil => intro bk bs _; rfl
  | cons a as ih =>
    intro bk bs h
    simp only [scoreLoop]
    have hna : ¬ bs < tokScore nt a := Nat.not_lt.mpr (h a (List.mem_cons_self a as))
    simp only [hna, if_false]
    exact ih bk bs (fun k hk => h k (List.mem_cons_of_mem a hk))

theorem scoreLoop_fst_of_eq (nt : List String) :
    ∀ ks bk bs, (scoreLoop nt ks bk bs).2 = bs → (scoreLoop nt ks bk bs).1 = bk := by
  intro ks
  induction ks with
  | nil => intro bk bs _; rfl
  | cons a as ih =>
    intro bk bs h
    simp only [scoreLoop] at h ⊢
    by_cases hlt : bs < tokScore nt a
    · simp only [hlt, if_true] at h ⊢
      have := scoreLoop_ge nt as (some a) (tokScore nt a)
      omega
    · simp only [hlt, if_false] at h ⊢
      exact ih bk bs h

theorem scoreLoop_first (nt : List String) :
    ∀ ks bk bs, bs < (scoreLoop nt ks bk bs).2 →
      ∃ pre k post, ks = pre ++ k :: post ∧
        (scoreLoop nt ks bk bs).1 = some k ∧
        tokScore nt k = (scoreLoop nt ks bk bs).2 ∧
        ∀ k2 ∈ pre, tokScore nt k2 < (scoreLoop nt ks bk bs).2 := by
  intro ks
  induction ks with
  | nil => intro bk bs h; exact absurd h (Nat.lt_irrefl bs)
  | cons a as ih =>
    intro bk bs h
    simp only [scoreLoop] at h ⊢
    by_cases hlt : bs < tokScore nt a
    · simp only [hlt, if_true] at h ⊢
      by_cases h2 : tokScore nt a < (scoreLoop nt as (some a) (tokScore nt a)).2
      · obtain ⟨pre, k, post, hks, h1, hsc, hpre⟩ := ih (some a) (tokScore nt a) h2
        refine ⟨a :: pre, k, post, by rw [hks, List.cons_append], h1, hsc, ?_⟩
        intro k2 hk2
        rcases List.mem_cons.mp hk2 with rfl | hk3
        · exact h2
        · exact hpre k2 hk3
      · have hge := scoreLoop_ge nt as (some a) (tokScore nt a)
        have heq : (scoreLoop nt as (some a) (tokScore nt a)).2 = tokScore nt a := by omega
        refine ⟨[], a, as, rfl, scoreLoop_fst_of_eq nt as (some a) (tokScore nt a) heq,
          heq.symm, by simp⟩
    · simp only [hlt, if_false] at h ⊢
      obtain ⟨pre, k, post, hks, h1, hsc, hpre⟩ := ih bk bs h
      refine ⟨a :: pre, k, post, by rw [hks, List.cons_append], h1, hsc, ?_⟩
      intro k2 hk2
      rcases List.mem_cons.mp hk2 with rfl | hk3
      · have := Nat.le_of_not_lt hlt
        omega
      · exact hpre k2 hk3

theorem nodup_append_uniq :
    ∀ (pre a : List String) (k : String) (post b : List String),
      pre ++ k :: post = a ++ k :: b → (pre ++ k :: post).Nodup → pre = a := by
  intro pre
  induction pre with
  | nil =>
    intro a k post b heq hnd
    cases a with
    | nil => rfl
    | cons x a2 =>
      rw [List.nil_append] at heq hnd
      injection heq with h1 h2
      subst h1
      exfalso
      have hkp : k ∈ post := by
        rw [h2]; exact List.mem_append_right a2 (List.mem_cons_self k b)
      exact (List.nodup_cons.mp hnd).1 hkp
  | cons x pre2 ih =>
    intro a k post b heq hnd
    cases a with
    | nil =>
      rw [List.nil_append] at heq
      rw [List.cons_append] at heq hnd
      injection heq with h1 h2
      subst h1
      exfalso
      exact (List.nodup_cons.mp hnd).1
        (List.mem_append_right pre2 (List.mem_cons_self _ post))
    | cons y a2 =>
      simp only [List.cons_append] at heq hnd
      injection heq with h1 h2
      subst h1
      rw [ih a2 k post b h2 (List.nodup_cons.mp hnd).2]

/-- C6: under a failed phase one, matchDish returns none exactly when
every table key has token-overlap score 0 against the normalized input
(so a score-0 key is never returned), and any returned key is a table
key of score at least 1, of maximal score, and the first key of that
score in table iteration order. -/
theorem C6_token_scoring (s : String) (h : matchPhase1 (dishNorm s) = none) :
    (matchDish s = none ↔ ∀ k ∈ NUTRITION_KEYS, tokScore (tokensOf (dishNorm s)) k = 0) ∧
    (∀ k, matchDish s = some k →
      k ∈ NUTRITION_KEYS ∧
      1 ≤ tokScore (tokensOf (dishNorm s)) k ∧
      (∀ k2 ∈ NUTRITION_KEYS,
        tokScore (tokensOf (dishNorm s)) k2 ≤ tokScore (tokensOf (dishNorm s)) k) ∧
      (∀ pre post, NUTRITION_KEYS = pre ++ k :: post →
        ∀ k2 ∈ pre,
          tokScore (tokensOf (dishNorm s)) k2 < tokScore (tokensOf (dishNorm s)) k)) := by
  have hmd : matchDish s =
      (if 1 ≤ (scoreLoop (tokensOf (dishNorm s)) NUTRITION_KEYS none 0).2
       then (scoreLoop (tokensOf (dishNorm s)) NUTRITION_KEYS none 0).1 else none) := by
    simp only [matchDish, h]
  constructor
  · constructor
    · intro h0 k hk
      rw [hmd] at h0
      by_cases h1 : 1 ≤ (scoreLoop (tokensOf (dishNorm s)) NUTRITION_KEYS none 0).2
      · simp only [h1, if_true] at h0
        obtain ⟨pre, k2, post, _, hfst, _, _⟩ :=
          scoreLoop_first (tokensOf (dishNorm s)) NUTRITION_KEYS none 0 (by omega)
        rw [h0] at hfst
        exact absurd hfst (by simp)
      · have hle := scoreLoop_le (tokensOf (dishNorm s)) NUTRITION_KEYS none 0 k hk
        omega
    · intro hall
      rw [hmd, scoreLoop_const (tokensOf (dishNorm s)) NUTRITION_KEYS none 0
        (fun k hk => by rw [hall k hk])]
      simp
  · intro k hk0
    rw [hmd] at hk0
    by_cases h1 : 1 ≤ (scoreLoop (tokensOf (dishNorm s)) NUTRITION_KEYS none 0).2
    · simp only [h1, if_true] at hk0
      obtain ⟨pre, k2, post, hks, hfst, hsc, hpre⟩ :=
        scoreLoop_first (tokensOf (dishNorm s)) NUTRITION_KEYS none 0 (by omega)
      rw [hk0] at hfst
      have hkk : k2 = k := (Option.some.inj hfst).symm
      subst hkk
      refine ⟨by rw [hks]; exact List.mem_append_right pre (List.mem_cons_self k2 post),
        by omega, ?_, ?_⟩
      · intro k3 hk3
        have := scoreLoop_le (tokensOf (dishNorm s)) NUTRITION_KEYS none 0 k3 hk3
        omega
      · intro pre2 post2 hdec k3 hk3
        have hnd : NUTRITION_KEYS.Nodup := by decide
        have hpp : pre2 = pre := by
          apply nodup_append_uniq pre2 pre k2 post2 post
          · rw [← hdec, hks]
          · rw [← hdec]; exact hnd
        subst hpp
        have := hpre k3 hk3
        omega
    · simp only [h1, if_false] at hk0
      exact absurd hk0 (by simp)

/-- Witness for C6 on the input thai pad, which phase one does not
resolve and phase two scores to pad thai. -/
theorem C6_token_scoring_witness :
    "pad thai" ∈ NUTRITION_KEYS ∧
    1 ≤ tokScore (tokensOf (dishNorm "thai pad")) "pad thai" ∧
    (∀ k2 ∈ NUTRITION_KEYS,
      tokScore (tokensOf (dishNorm "thai pad")) k2 ≤
        tokScore (tokensOf (dishNorm "thai pad")) "pad thai") ∧
    (∀ pre post, NUTRITION_KEYS = pre ++ "pad thai" :: post →
      ∀ k2 ∈ pre,
        tokScore (tokensOf (dishNorm "thai pad")) k2 <
          tokScore (tokensOf (dishNorm "thai pad")) "pad thai") :=
  (C6_token_scoring "thai pad" (by decide)).2 "pad thai" (by decide)

theorem fIdx_spec (p : Char → Bool) :
    ∀ cs i, fIdx p cs = some i →
      i < cs.length ∧ (∃ c, cs[i]? = some c ∧ p c = true) ∧
        ∀ c ∈ cs.take i, p c = false := by
  intro cs
  induction cs with
  | nil => intro i h; simp [fIdx] at h
  | cons c cs2 ih =>
    intro i h
    rw [fIdx] at h
    by_cases hp : p c = true
    · simp only [hp, if_true] at h
      have hi : i = 0 := (Option.some.inj h).symm
      subst hi
      exact ⟨Nat.succ_pos _, ⟨c, by simp, hp⟩, by simp⟩
    · have hp2 : p c = false := by revert hp; cases p c <;> simp
      simp only [hp2, Bool.false_eq_true, if_false, Option.map_eq_some'] at h
      obtain ⟨j, hj, rfl⟩ := h
      obtain ⟨h1, ⟨d, hd, hpd⟩, h3⟩ := ih j hj
      refine ⟨by simpa using Nat.succ_lt_succ h1, ⟨d, by simpa using hd, hpd⟩, ?_⟩
      intro e he
      rw [List.take_succ_cons] at he
      rcases List.mem_cons.mp he with rfl | he2
      · exact hp2
      · exact h3 e he2

theorem lIdx_none (p : Char → Bool) :
    ∀ cs, lIdx p cs = none → ∀ c ∈ cs, p c = false := by
  intro cs
  induction cs with
  | nil => intro _ c hc; exact absurd hc (List.not_mem_nil c)
  | cons c cs2 ih =>
    intro h d hd
    rw [lIdx] at h
    cases hl : lIdx p cs2 with
    | some j => rw [hl] at h; exact absurd h (by simp)
    | none =>
      rw [hl] at h
      by_cases hp : p c = true
      · simp [hp] at h
      · have hp2 : p c = false := by revert hp; cases p c <;> simp
        rcases List.mem_cons.mp hd with rfl | hd2
        · exact hp2
        · exact ih hl d hd2

theorem lIdx_spec (p : Char → Bool) :
    ∀ cs j, lIdx p cs = some j →
      j < cs.length ∧ (∃ c, cs[j]? = some c ∧ p c = true) ∧
        ∀ c ∈ cs.drop (j + 1), p c = false := by
  intro cs
  induction cs with
  | nil => intro j h; simp [lIdx] at h
  | cons c cs2 ih =>
    intro j h
    rw [lIdx] at h
    cases hl : lIdx p cs2 with
    | some j2 =>
      rw [hl] at h
      have hj : j = j2 + 1 := (Option.some.inj h).symm
      subst hj
      obtain ⟨h1, ⟨d, hd, hpd⟩, h3⟩ := ih j2 hl
      exact ⟨by simpa using Nat.succ_lt_succ h1, ⟨d, by simpa using hd, hpd⟩,
        by simpa using h3⟩
    | none =>
      rw [hl] at h
      by_cases hp : p c = true
      · simp only [hp, if_true] at h
        have hj : j = 0 := (Option.some.inj h).symm
        subst hj
        exact ⟨Nat.succ_pos _, ⟨c, by simp, hp⟩, by simpa using lIdx_none p cs2 hl⟩
      · simp [hp] at h

/-- C4 counterexample: on a response holding two brace-delimited
objects, the extraction keeps the whole span from the first left brace
to the last right brace, which differs from the earliest object; the
earliest object is itself parseable while the greedy span is not, so
the estimator falls through to its default tag there. -/
theorem C4_counterexample :
    braceJsonText "\x7b\"kcal\":1\x7d \x7b\"kcal\":2\x7d" = "\x7b\"kcal\":1\x7d \x7b\"kcal\":2\x7d" ∧
    ("\x7b\"kcal\":1\x7d \x7b\"kcal\":2\x7d" : String) ≠ "\x7b\"kcal\":1\x7d" ∧
    (jsonParse "\x7b\"kcal\":1\x7d").isSome = true ∧
    (jsonParse "\x7b\"kcal\":1\x7d \x7b\"kcal\":2\x7d").isNone = true ∧
    (estimateNutrition "zzz" none "\x7b\"kcal\":1\x7d \x7b\"kcal\":2\x7d").source = "default" := by
  with_unfolding_all decide

/-- C4 (amended): the substring handed to the parser spans from the
first left brace of the text to its last right brace (the greedy regex
match): it begins with a left brace, ends with a right brace, no left
brace occurs before it and no right brace occurs after it in the text.
It coincides with the first brace-delimited JSON object only when no
later right brace exists. -/
theorem C4_extraction_greedy (s u : String)
    (h : extractDelim lbrace rbrace s = some u) :
    u.data.head? = some lbrace ∧ u.data.getLast? = some rbrace ∧
    ∃ a b, s.data = a ++ u.data ++ b ∧ (∀ c ∈ a, c ≠ lbrace) ∧ (∀ c ∈ b, c ≠ rbrace) := by
  rw [extractDelim] at h
  cases hf : fIdx (· == lbrace) s.data with
  | none => rw [hf] at h; exact absurd h (by simp)
  | some i =>
    cases hl : lIdx (· == rbrace) s.data with
    | none => rw [hf, hl] at h; exact absurd h (by simp)
    | some j =>
      rw [hf, hl] at h
      by_cases hij : i < j
      · simp only [hij, if_true] at h
        have hu : u = String.mk ((s.data.drop i).take (j - i + 1)) := (Option.some.inj h).symm
        subst hu
        obtain ⟨hilen, ⟨c0, hc0, hpc0⟩, hbefore⟩ := fIdx_spec _ s.data i hf
        obtain ⟨hjlen, ⟨c1, hc1, hpc1⟩, hafter⟩ := lIdx_spec _ s.data j hl
        have hT : (String.mk ((s.data.drop i).take (j - i + 1))).data =
            (s.data.drop i).take (j - i + 1) := rfl
        rw [hT]
        refine ⟨?_, ?_, ?_⟩
        · rw [List.head?_eq_getElem?, List.getElem?_take, if_pos (Nat.succ_pos _),
            List.getElem?_drop, Nat.add_zero, hc0]
          have hc : c0 = lbrace := by simpa using hpc0
          rw [hc]
        · rw [List.getLast?_eq_getElem?]
          have hlenT : ((s.data.drop i).take (j - i + 1)).length = j - i + 1 := by
            rw [List.length_take, List.length_drop]
            omega
          rw [hlenT, Nat.add_sub_cancel, List.getElem?_take, if_pos (by omega),
            List.getElem?_drop]
          have hij2 : i + (j - i) = j := by omega
          rw [hij2, hc1]
          have hc : c1 = rbrace := by simpa using hpc1
          rw [hc]
        · refine ⟨s.data.take i, s.data.drop (j + 1), ?_, ?_, ?_⟩
          · rw [List.append_assoc]
            conv_lhs => rw [← List.take_append_drop i s.data]
            congr 1
            conv_lhs => rw [← List.take_append_drop (j - i + 1) (s.data.drop i)]
            congr 1
            rw [List.drop_drop]
            congr 1
            omega
          · intro c hc
            simpa using hbefore c hc
          · intro c hc
            simpa using hafter c hc
      · simp [hij] at h

/-- Witness for C4 (amended) on a short commented reply. -/
theorem C4_extraction_greedy_witness :
    ("\x7bx\x7d" : String).data.head? = some lbrace ∧
    ("\x7bx\x7d" : String).data.getLast? = some rbrace ∧
    ∃ a b, ("a\x7bx\x7db" : String).data = a ++ ("\x7bx\x7d" : String).data ++ b ∧
      (∀ c ∈ a, c ≠ lbrace) ∧ (∀ c ∈ b, c ≠ rbrace) :=
  C4_extraction_greedy "a\x7bx\x7db" "\x7bx\x7d" (by decide)
